import Mathlib

/-!
Shallow embedding of `gen_class_imgs.py`: the class-image distribution
planner and the batch fulfillment loop of `generate_class_images`, together
with the relevant control flow of `main`.

Python `dict`s are modelled as association lists in insertion order
(`dictOf` reproduces dict-comprehension semantics: first occurrence fixes
the position of a key, a later occurrence overwrites the value).
Python `float`s are modelled as exact rationals `ℚ`; Python's `round`
(banker's rounding, half to even) is `pyRound`.  The filesystem is an
association list from filename to image content where a write silently
replaces any existing entry.  External collaborators that are not part of
this file (`SDDataset.get_images`, `SDDatasetWithARB.get_id_size_map`,
`BucketManager`, the diffusion pipeline, `hashlib.md5`) enter as oracle
parameters or as definitions modelled from the spec, marked as such.
-/

namespace GenClassImgs

/-- A size bucket: a `(width, height)` pair of integers. -/
abbrev Bucket := ℤ × ℤ

/-- Python's built-in `round` on an exact rational: round half to even. -/
def pyRound (q : ℚ) : ℤ :=
  if q - ⌊q⌋ < 1/2 then ⌊q⌋
  else if 1/2 < q - ⌊q⌋ then ⌊q⌋ + 1
  else if ⌊q⌋ % 2 = 0 then ⌊q⌋ else ⌊q⌋ + 1

/-- Python dict assignment `d[k] = v` on an insertion-ordered association
list: an existing key keeps its position and gets the new value, a fresh
key is appended. -/
def dictInsert {κ α : Type} [DecidableEq κ] (l : List (κ × α)) (k : κ) (v : α) :
    List (κ × α) :=
  if l.any (fun kv => kv.1 = k) then
    l.map (fun kv => if kv.1 = k then (k, v) else kv)
  else l ++ [(k, v)]

/-- Python dict built from a sequence of key/value pairs (the semantics of a
dict comprehension): insert the pairs left to right. -/
def dictOf {κ α : Type} [DecidableEq κ] (pairs : List (κ × α)) : List (κ × α) :=
  pairs.foldl (fun acc kv => dictInsert acc kv.1 kv.2) []

/-- Python `d.get(k, 0)` for a current-count map. -/
def curGet (C : List (Bucket × ℕ)) (b : Bucket) : ℕ :=
  ((C.find? (fun kv => kv.1 = b)).map Prod.snd).getD 0

/-- Line 36: `target_dist = {size: round(autogen_config.num_target * p) for size, p in size_dist.items()}`. -/
def target_dist (N : ℤ) (P : List (Bucket × ℚ)) : List (Bucket × ℤ) :=
  dictOf (P.map (fun sp => (sp.1, pyRound ((N : ℚ) * sp.2))))

/-- Line 40: `dist_diff = {k: v - cur_dist.get(k, 0) for k, v in target_dist.items() if v > cur_dist.get(k, 0)}`. -/
def dist_diff (target : List (Bucket × ℤ)) (C : List (Bucket × ℕ)) :
    List (Bucket × ℤ) :=
  dictOf (target.filterMap (fun kv =>
    if (curGet C kv.1 : ℤ) < kv.2 then some (kv.1, kv.2 - curGet C kv.1) else none))

/-- The distribution planner of `generate_class_images` (lines 36-40):
proportions and a total target to a deficit map, given the current counts. -/
def plan (P : List (Bucket × ℚ)) (N : ℤ) (C : List (Bucket × ℕ)) :
    List (Bucket × ℤ) :=
  dist_diff (target_dist N P) C

/-- Lines 31-32: `cur_dist = {size: len([k for k in class_id_size_map.keys()
if class_id_size_map[k] == size]) for id, size in class_id_size_map.items()}`,
with the id-to-size dict given as an association list with distinct ids. -/
def cur_dist (m : List (String × Bucket)) : List (Bucket × ℕ) :=
  dictOf (m.map (fun is =>
    (is.2, (m.filter (fun kv => kv.2 = is.2)).length)))

/-- Lines 54-55: `actual_bs = target if target - autogen_config.batch_size < 0 else autogen_config.batch_size`. -/
def actual_bs (target m : ℤ) : ℤ :=
  if target - m < 0 then target else m

/-- Fuel-indexed body of the per-bucket `while True` loop (lines 53-58, 76),
recording the batch size of each generation request.  The fuel only bounds
the number of iterations; `bucketBatchesAux_congr` shows any fuel above
`target.toNat` gives the same result. -/
def bucketBatchesAux (m : ℤ) : ℕ → ℤ → List ℤ
  | 0, _ => []
  | fuel + 1, target =>
    let a := actual_bs target m
    if a ≤ 0 then []
    else a :: bucketBatchesAux m fuel (target - a)

/-- The sequence of batch sizes the per-bucket loop requests for a starting
deficit `target` and batch-size cap `m`. -/
def bucketBatches (target m : ℤ) : List ℤ :=
  bucketBatchesAux m (target.toNat + 1) target

/-- Step-counting version of the per-bucket loop: `none` means the loop has
not finished within the given number of iterations, so
`bucketBatchesO fuel t m = some l` states the while-loop terminates within
`fuel` iterations with request trace `l`. -/
def bucketBatchesO : ℕ → ℤ → ℤ → Option (List ℤ)
  | 0, _, _ => none
  | fuel + 1, target, m =>
    let a := actual_bs target m
    if a ≤ 0 then some []
    else (bucketBatchesO fuel (target - a) m).map (fun l => a :: l)

/-- Raw image: its `tobytes()` pixel bytes. -/
structure Image where
  bytes : List ℕ
  deriving DecidableEq, Repr

/-- The class-image directory contents: filename to stored image. -/
abbrev Fs := List (String × Image)

/-- Writing a file: the new content silently replaces any existing file at
that name. -/
def fsWrite (fs : Fs) (name : String) (img : Image) : Fs :=
  (name, img) :: fs.filter (fun kv => kv.1 ≠ name)

/-- Reading a file by name. -/
def fsLookup (fs : Fs) (name : String) : Option Image :=
  (fs.find? (fun kv => kv.1 = name)).map Prod.snd

/-- One lowercase hexadecimal digit. -/
def hexChar (n : ℕ) : Char :=
  if n < 10 then Char.ofNat (48 + n) else Char.ofNat (87 + n)

/-- Two lowercase hex digits of one byte. -/
def byteHex (b : ℕ) : String :=
  String.mk [hexChar (b / 16 % 16), hexChar (b % 16)]

/-- `hexdigest()`: the digest bytes rendered as lowercase hex. -/
def hexdigest (digest : List ℕ) : String :=
  String.join (digest.map byteHex)

/-- Line 71-72: the content-addressed filename
`class_images_dir / (md5(image.tobytes()).hexdigest() + ".jpg")`; the md5
digest function itself is an oracle parameter (external `hashlib`). -/
def classFileName (md5 : List ℕ → List ℕ) (dir : String) (img : Image) : String :=
  dir ++ "/" ++ hexdigest (md5 img.bytes) ++ ".jpg"

/-- Lines 70-73: save every returned image under its content hash. -/
def saveImages (md5 : List ℕ → List ℕ) (dir : String) (fs : Fs)
    (images : List Image) : Fs :=
  images.foldl (fun a img => fsWrite a (classFileName md5 dir img) img) fs

/-- Fuel-indexed per-bucket loop with the filesystem threaded through
(lines 53-76): each iteration requests `actual_bs` images from the
generator `gen`, saves them, and decreases the remaining target by
`actual_bs`. -/
def bucketLoopAux (md5 : List ℕ → List ℕ) (gen : ℤ → List Image) (dir : String)
    (m : ℤ) : ℕ → ℤ → Fs → List ℤ × Fs
  | 0, _, fs => ([], fs)
  | fuel + 1, target, fs =>
    let a := actual_bs target m
    if a ≤ 0 then ([], fs)
    else
      let fs1 := saveImages md5 dir fs (gen a)
      let r := bucketLoopAux md5 gen dir m fuel (target - a) fs1
      (a :: r.1, r.2)

/-- The per-bucket loop for a given starting deficit. -/
def bucketLoop (md5 : List ℕ → List ℕ) (gen : ℤ → List Image) (dir : String)
    (m target : ℤ) (fs : Fs) : List ℤ × Fs :=
  bucketLoopAux md5 gen dir m (target.toNat + 1) target fs

/-- Lines 50-76: the fulfillment loop over the deficit map, in order,
returning the issued generation requests (bucket and batch size) and the
final directory contents. -/
def runBuckets (md5 : List ℕ → List ℕ) (gen : Bucket → ℤ → List Image)
    (dir : String) (m : ℤ) : List (Bucket × ℤ) → Fs → List (Bucket × ℤ) × Fs
  | [], fs => ([], fs)
  | bd :: rest, fs =>
    let r := bucketLoop md5 (gen bd.1) dir m bd.2 fs
    let r2 := runBuckets md5 gen dir m rest r.2
    (r.1.map (fun a => (bd.1, a)) ++ r2.1, r2.2)

/-- All generation requests of a fulfillment run over a deficit map, as
(bucket, batch size) pairs in planner order. -/
def allBatches (diff : List (Bucket × ℤ)) (m : ℤ) : List (Bucket × ℤ) :=
  diff.flatMap (fun bd => (bucketBatches bd.2 m).map (fun a => (bd.1, a)))

/-- Line 44: `num_new_images = sum(dist_diff.values())`, the total the run
logs and uses as the progress-bar total. -/
def num_new_images (diff : List (Bucket × ℤ)) : ℤ :=
  (diff.map Prod.snd).sum

/-- The observable outcome of one `generate_class_images` call. -/
structure GenRun where
  /-- every pipeline call, as (bucket, `num_images_per_prompt`). -/
  requests : List (Bucket × ℤ)
  /-- the logged total number of class images to sample (progress total). -/
  progressTotal : ℤ
  /-- the class directory contents after the run. -/
  fs : Fs
  /-- the Python function's return value; the source has no return statement. -/
  retval : Option ℤ
  deriving DecidableEq, Repr

/-- `generate_class_images` (lines 22-76).  The directory scan
`SDDataset.get_images` composed with `SDDatasetWithARB.get_id_size_map`
(external modules) enters as the already-computed id-to-size map
`idSizeMap`; `md5` and the diffusion pipeline `gen` are oracles. -/
def generate_class_images_run (md5 : List ℕ → List ℕ)
    (gen : Bucket → ℤ → List Image) (dir : String) (N m : ℤ)
    (sizeDist : List (Bucket × ℚ)) (idSizeMap : List (String × Bucket))
    (fs0 : Fs) : GenRun :=
  let cur := cur_dist idSizeMap
  let diff := dist_diff (target_dist N sizeDist) cur
  let r := runBuckets md5 gen dir m diff fs0
  { requests := r.1
    progressTotal := num_new_images diff
    fs := r.2
    retval := none }

/-- `concept.class_set.auto_generate` configuration fields. -/
structure AutoGenConfig where
  enabled : Bool
  num_target : ℤ
  batch_size : ℤ
  deriving DecidableEq, Repr

/-- `concept.class_set` configuration fields. -/
structure ClassSet where
  path : String
  auto_generate : AutoGenConfig
  deriving DecidableEq, Repr

/-- One entry of `config.data.concepts`. -/
structure Concept where
  class_set : ClassSet
  /-- the id-to-size map of the concept's instance images (external scan). -/
  instance_id_size_map : List (String × Bucket)
  deriving DecidableEq, Repr

/-- The configuration fields `main` reads. -/
structure Config where
  prior_preservation_enabled : Bool
  aspect_ratio_bucket_enabled : Bool
  resolution : ℤ
  concepts : List Concept
  deriving DecidableEq, Repr

/-- Lines 135-145: the per-concept size distribution and its assertion.
When bucketing is disabled the distribution is the single square bucket
with proportion `1.0`; otherwise it is the external catalog's output
`arbDist` for this concept, accepted only when its values sum to exactly
one (`assert sum(size_dist.values()) == 1`, which otherwise aborts the
run with an `AssertionError`). -/
def conceptSizeDist (arb : Bool) (res : ℤ) (arbDist : List (Bucket × ℚ)) :
    Except String (List (Bucket × ℚ)) :=
  if arb = false then .ok [((res, res), (1 : ℚ))]
  else if (arbDist.map Prod.snd).sum = 1 then .ok arbDist
  else .error "AssertionError"

/-- Lines 130-147 for one concept: skip when auto-generate is disabled,
otherwise compute the size distribution (asserting on it in bucketing
mode) and run `generate_class_images`.  `catalog` is the external
`BucketManager` pipeline (it produces the bucket proportions of the
concept's instance images); `inventory` is the external scan of the
concept's class directory. -/
def conceptRun (md5 : List ℕ → List ℕ) (gen : Bucket → ℤ → List Image)
    (catalog : Concept → List (Bucket × ℚ))
    (inventory : String → List (String × Bucket))
    (arb : Bool) (res : ℤ) (c : Concept) (fs : Fs) :
    Except String (Option GenRun × Fs) :=
  if c.class_set.auto_generate.enabled = false then .ok (none, fs)
  else
    match conceptSizeDist arb res (catalog c) with
    | .error e => .error e
    | .ok sd =>
        let g := generate_class_images_run md5 gen c.class_set.path
          c.class_set.auto_generate.num_target c.class_set.auto_generate.batch_size
          sd (inventory c.class_set.path) fs
        .ok (some g, g.fs)

/-- The concept loop of `main` (lines 130-147): concepts in order, the
filesystem threaded through; an assertion failure aborts the whole run. -/
def conceptsRun (md5 : List ℕ → List ℕ) (gen : Bucket → ℤ → List Image)
    (catalog : Concept → List (Bucket × ℚ))
    (inventory : String → List (String × Bucket))
    (arb : Bool) (res : ℤ) : List Concept → Fs →
    Except String (List (Option GenRun) × Fs)
  | [], fs => .ok ([], fs)
  | c :: rest, fs =>
    match conceptRun md5 gen catalog inventory arb res c fs with
    | .error e => .error e
    | .ok (g, fs1) =>
        match conceptsRun md5 gen catalog inventory arb res rest fs1 with
        | .error e => .error e
        | .ok (gs, fs2) => .ok (g :: gs, fs2)

/-- The observable outcome of `main`. -/
structure MainRun where
  warnings : List String
  /-- whether the diffusion pipeline was constructed (lines 89-128). -/
  pipelineBuilt : Bool
  /-- per-concept outcomes, or the error that aborted the run. -/
  result : Except String (List (Option GenRun))
  deriving Repr

/-- `main` (lines 81-147) after configuration loading: if prior
preservation is disabled, warn and return without building the pipeline or
issuing any request; otherwise build the pipeline and process every
concept. -/
def mainRun (md5 : List ℕ → List ℕ) (gen : Bucket → ℤ → List Image)
    (catalog : Concept → List (Bucket × ℚ))
    (inventory : String → List (String × Bucket))
    (cfg : Config) (fs : Fs) : MainRun :=
  if cfg.prior_preservation_enabled = false then
    { warnings := ["Prior preservation not enabled. Class image generation is not needed."]
      pipelineBuilt := false
      result := .ok [] }
  else
    { warnings := (cfg.concepts.filter
        (fun c => c.class_set.auto_generate.enabled = false)).map
        (fun _ => "Concept skipped because class auto generate is not enabled.")
      pipelineBuilt := true
      result := (conceptsRun md5 gen catalog inventory
        cfg.aspect_ratio_bucket_enabled cfg.resolution cfg.concepts fs).map Prod.fst }

/-- A filesystem with directories, for the `mkdir` behaviour of
`generate_class_images` (lines 25-26): directories are component paths,
files live in a directory and carry an id and an image size. -/
structure DirFs where
  dirs : List (List String)
  files : List (List String × String × Bucket)
  deriving DecidableEq, Repr

/-- The nonempty prefixes of a path: the chain of directories
`mkdir(parents=True)` may have to create. -/
def pathAncestors (d : List String) : List (List String) :=
  (List.range d.length).map (fun i => d.take (i + 1))

/-- Line 26, `class_images_dir.mkdir(parents=True, exist_ok=True)`: create
the directory and every missing parent; existing directories are left as
they are and raise no error. -/
def mkdirParents (dirs : List (List String)) (d : List String) :
    List (List String) :=
  dirs ++ (pathAncestors d).filter (fun p => p ∉ dirs)

/-- The state of the filesystem after line 26. -/
def classDirSetup (fs : DirFs) (d : List String) : DirFs :=
  { fs with dirs := mkdirParents fs.dirs d }

/-- Modelled from the spec: `SDDataset.get_images` composed with
`SDDatasetWithARB.get_id_size_map` (line 28-29); the modules are not part
of this file's source.  Per §4.3 the inventory is a pure read of the
directory mapping each image id to its size, and an error opening the
directory aborts the scan. -/
def scanDir (fs : DirFs) (d : List String) :
    Except String (List (String × Bucket)) :=
  if d ∈ fs.dirs then
    .ok ((fs.files.filter (fun f => f.1 = d)).map (fun f => f.2))
  else .error "No such directory"

/-- Lines 25-32: create the class directory if missing, then inventory it
and group the counts by size. -/
def class_dir_inventory (fs : DirFs) (d : List String) :
    Except String (List (Bucket × ℕ)) :=
  (scanDir (classDirSetup fs d) d).map cur_dist

/-! ### Lemmas about the per-bucket loop -/

lemma actual_bs_le {t m : ℤ} (h : 0 < actual_bs t m) : actual_bs t m ≤ t := by
  unfold actual_bs at h ⊢
  split at h <;> simp_all <;> omega

lemma bucketBatchesAux_congr (m : ℤ) :
    ∀ (f₁ : ℕ) (t : ℤ) (f₂ : ℕ), t.toNat < f₁ → t.toNat < f₂ →
      bucketBatchesAux m f₁ t = bucketBatchesAux m f₂ t := by
  intro f₁
  induction f₁ with
  | zero => intro t f₂ h1 _; exact absurd h1 (Nat.not_lt_zero _)
  | succ g ih =>
    intro t f₂ h1 h2
    cases f₂ with
    | zero => exact absurd h2 (Nat.not_lt_zero _)
    | succ h =>
      simp only [bucketBatchesAux]
      by_cases ha : actual_bs t m ≤ 0
      · simp [ha]
      · have hpos : 0 < actual_bs t m := not_le.mp ha
        have hle := actual_bs_le hpos
        simp only [if_neg ha]
        have h3 : (t - actual_bs t m).toNat < t.toNat := by omega
        rw [ih (t - actual_bs t m) h (by omega) (by omega)]

lemma bucketBatches_eq_aux (t m : ℤ) (f : ℕ) (h : t.toNat < f) :
    bucketBatches t m = bucketBatchesAux m f t :=
  bucketBatchesAux_congr m (t.toNat + 1) t f (Nat.lt_succ_self _) h

lemma bucketBatches_unfold (t m : ℤ) :
    bucketBatches t m =
      if actual_bs t m ≤ 0 then []
      else actual_bs t m :: bucketBatches (t - actual_bs t m) m := by
  conv_lhs => rw [bucketBatches]
  simp only [bucketBatchesAux]
  by_cases ha : actual_bs t m ≤ 0
  · simp [ha]
  · have hpos : 0 < actual_bs t m := not_le.mp ha
    have hle := actual_bs_le hpos
    simp only [if_neg ha]
    rw [← bucketBatches_eq_aux (t - actual_bs t m) m t.toNat (by omega)]

lemma bucketBatches_zero {m : ℤ} (hm : 0 < m) : bucketBatches 0 m = [] := by
  rw [bucketBatches_unfold]
  have ha : actual_bs 0 m = 0 := if_pos (by omega)
  simp [ha]

lemma bucketBatches_replicate (m : ℤ) (hm : 0 < m) :
    ∀ (n : ℕ) (r : ℤ), 0 < r → r ≤ m →
      bucketBatches ((n : ℤ) * m + r) m = List.replicate n m ++ [r] := by
  intro n
  induction n with
  | zero =>
    intro r hr hrm
    have ht : ((0 : ℕ) : ℤ) * m + r = r := by push_cast; ring
    rw [ht, bucketBatches_unfold]
    by_cases h : r - m < 0
    · have ha : actual_bs r m = r := if_pos h
      rw [ha, if_neg (by omega), sub_self, bucketBatches_zero hm]
      simp
    · have hrm' : r = m := by omega
      have ha : actual_bs r m = m := if_neg h
      rw [ha, if_neg (by omega), hrm', sub_self, bucketBatches_zero hm]
      simp
  | succ k ih =>
    intro r hr hrm
    have hkm : 0 ≤ (k : ℤ) * m := mul_nonneg (by positivity) hm.le
    have ht : ((k + 1 : ℕ) : ℤ) * m + r - m = (k : ℤ) * m + r := by push_cast; ring
    have ha : actual_bs (((k + 1 : ℕ) : ℤ) * m + r) m = m := by
      unfold actual_bs
      rw [if_neg (by push_cast; nlinarith)]
    rw [bucketBatches_unfold, ha, if_neg (by omega), ht, ih r hr hrm,
      List.replicate_succ]
    simp

/-- The shape of a positive bucket's request trace: some number of
full-size batches followed by one final batch of the division remainder
(or a full batch when the deficit divides evenly). -/
lemma bucketBatches_shape (d m : ℤ) (hd : 0 < d) (hm : 0 < m) :
    ∃ n : ℕ,
      bucketBatches d m = List.replicate n m ++ [if m ∣ d then m else d % m]
      ∧ ((d + m - 1) / m).toNat = n + 1
      ∧ (n : ℤ) * m + (if m ∣ d then m else d % m) = d
      ∧ 0 < (if m ∣ d then m else d % m)
      ∧ (if m ∣ d then m else d % m) ≤ m := by
  have hqr : m * (d / m) + d % m = d := Int.ediv_add_emod d m
  have hr0 : 0 ≤ d % m := Int.emod_nonneg d (ne_of_gt hm)
  have hrm : d % m < m := Int.emod_lt_of_pos d hm
  have hq0 : 0 ≤ d / m := Int.ediv_nonneg hd.le hm.le
  by_cases hdvd : m ∣ d
  · have hr : d % m = 0 := Int.emod_eq_zero_of_dvd hdvd
    have hq1 : 1 ≤ d / m := by
      rcases lt_or_le (d / m) 1 with h | h
      · nlinarith
      · exact h
    refine ⟨(d / m - 1).toNat, ?_, ?_, ?_, ?_, ?_⟩
    · have hn : ((d / m - 1).toNat : ℤ) = d / m - 1 := Int.toNat_of_nonneg (by omega)
      have hEq : d = ((d / m - 1).toNat : ℤ) * m + m := by rw [hn]; nlinarith
      rw [if_pos hdvd]
      calc bucketBatches d m
          = bucketBatches (((d / m - 1).toNat : ℤ) * m + m) m := by rw [← hEq]
        _ = List.replicate (d / m - 1).toNat m ++ [m] :=
            bucketBatches_replicate m hm _ m hm le_rfl
    · have hceil : (d + m - 1) / m = d / m := by
        have h1 : d + m - 1 = (m - 1) + (d / m) * m := by nlinarith
        rw [h1, Int.add_mul_ediv_right _ _ (ne_of_gt hm),
          Int.ediv_eq_zero_of_lt (by omega) (by omega), zero_add]
      rw [hceil]; omega
    · rw [if_pos hdvd, Int.toNat_of_nonneg (by omega : (0:ℤ) ≤ d / m - 1)]
      nlinarith
    · rw [if_pos hdvd]; exact hm
    · rw [if_pos hdvd]
  · have hr : d % m ≠ 0 := fun h => hdvd (Int.dvd_of_emod_eq_zero h)
    refine ⟨(d / m).toNat, ?_, ?_, ?_, ?_, ?_⟩
    · have hn : ((d / m).toNat : ℤ) = d / m := Int.toNat_of_nonneg hq0
      have hEq : d = ((d / m).toNat : ℤ) * m + d % m := by rw [hn]; nlinarith
      rw [if_neg hdvd]
      calc bucketBatches d m
          = bucketBatches (((d / m).toNat : ℤ) * m + d % m) m := by rw [← hEq]
        _ = List.replicate (d / m).toNat m ++ [d % m] :=
            bucketBatches_replicate m hm _ _ (by omega) (by omega)
    · have hceil : (d + m - 1) / m = d / m + 1 := by
        have h1 : d + m - 1 = (d % m - 1) + (d / m + 1) * m := by nlinarith
        rw [h1, Int.add_mul_ediv_right _ _ (ne_of_gt hm),
          Int.ediv_eq_zero_of_lt (by omega) (by omega), zero_add]
      rw [hceil]; omega
    · rw [if_neg hdvd, Int.toNat_of_nonneg hq0]; nlinarith
    · rw [if_neg hdvd]; omega
    · rw [if_neg hdvd]; omega

lemma bucketBatchesO_eq (m : ℤ) :
    ∀ (fuel : ℕ) (t : ℤ), t.toNat < fuel →
      bucketBatchesO fuel t m = some (bucketBatchesAux m fuel t) := by
  intro fuel
  induction fuel with
  | zero => intro t h; exact absurd h (Nat.not_lt_zero _)
  | succ g ih =>
    intro t h
    simp only [bucketBatchesO, bucketBatchesAux]
    by_cases ha : actual_bs t m ≤ 0
    · simp [ha]
    · have hpos : 0 < actual_bs t m := not_le.mp ha
      have hle := actual_bs_le hpos
      simp only [if_neg ha]
      rw [ih (t - actual_bs t m) (by omega)]
      rfl

/-- The while-loop always terminates: enough fuel returns `some`. -/
lemma bucketBatchesO_terminates (t m : ℤ) :
    bucketBatchesO (t.toNat + 1) t m = some (bucketBatches t m) :=
  bucketBatchesO_eq m (t.toNat + 1) t (Nat.lt_succ_self _)

/-! ### Lemmas about the dict model -/

lemma dictInsert_mem {κ α : Type} [DecidableEq κ] {l : List (κ × α)} {k : κ}
    {v : α} {x : κ × α} (h : x ∈ dictInsert l k v) : x ∈ l ∨ x = (k, v) := by
  unfold dictInsert at h
  split at h
  · rcases List.mem_map.mp h with ⟨kv, hkv, heq⟩
    by_cases hk : kv.1 = k
    · right; rw [if_pos hk] at heq; exact heq.symm
    · left; rw [if_neg hk] at heq; exact heq ▸ hkv
  · rcases List.mem_append.mp h with h | h
    · left; exact h
    · right; simpa using h

lemma dictOf_mem {κ α : Type} [DecidableEq κ] {l : List (κ × α)} {x : κ × α}
    (h : x ∈ dictOf l) : x ∈ l := by
  suffices hgen : ∀ (l acc : List (κ × α)),
      x ∈ l.foldl (fun a kv => dictInsert a kv.1 kv.2) acc → x ∈ acc ∨ x ∈ l by
    rcases hgen l [] h with h0 | h0
    · exact absurd h0 (List.not_mem_nil x)
    · exact h0
  intro l
  induction l with
  | nil => intro acc h; exact Or.inl h
  | cons kv rest ih =>
    intro acc h
    rcases ih (dictInsert acc kv.1 kv.2) h with h0 | h0
    · rcases dictInsert_mem h0 with h1 | h1
      · exact Or.inl h1
      · exact Or.inr (by rw [h1, Prod.mk.eta]; exact List.mem_cons_self _ _)
    · exact Or.inr (List.mem_cons_of_mem _ h0)

lemma dictOf_eq_self {κ α : Type} [DecidableEq κ] {l : List (κ × α)}
    (hnd : (l.map Prod.fst).Nodup) : dictOf l = l := by
  suffices hgen : ∀ (l acc : List (κ × α)), (l.map Prod.fst).Nodup →
      (∀ kv ∈ l, acc.any (fun x => x.1 = kv.1) = false) →
      l.foldl (fun a kv => dictInsert a kv.1 kv.2) acc = acc ++ l by
    simpa using hgen l [] hnd (by simp)
  intro l
  induction l with
  | nil => intro acc _ _; simp
  | cons kv rest ih =>
    intro acc hnd hacc
    have hk : kv.1 ∉ rest.map Prod.fst := (List.nodup_cons.mp (by simpa using hnd)).1
    have h1 : dictInsert acc kv.1 kv.2 = acc ++ [kv] := by
      unfold dictInsert
      rw [if_neg (by simp [hacc kv (List.mem_cons_self _ _)]), Prod.mk.eta]
    have h2 : ∀ x ∈ rest, (acc ++ [kv]).any (fun y => y.1 = x.1) = false := by
      intro x hx
      rw [List.any_append, Bool.or_eq_false_iff]
      refine ⟨hacc x (List.mem_cons_of_mem _ hx), ?_⟩
      simp only [List.any_cons, List.any_nil, Bool.or_false]
      simp only [decide_eq_false_iff_not]
      intro hcontra
      exact hk (hcontra ▸ List.mem_map_of_mem Prod.fst hx)
    calc (kv :: rest).foldl (fun a x => dictInsert a x.1 x.2) acc
        = rest.foldl (fun a x => dictInsert a x.1 x.2) (acc ++ [kv]) := by
          simp only [List.foldl_cons, h1]
      _ = (acc ++ [kv]) ++ rest := ih (acc ++ [kv]) (List.nodup_cons.mp (by simpa using hnd)).2 h2
      _ = acc ++ kv :: rest := by simp

lemma filterMap_fst_sublist {α β γ : Type} [DecidableEq γ]
    (g : γ × α → Option (γ × β)) (hg : ∀ kv x, g kv = some x → x.1 = kv.1) :
    ∀ l : List (γ × α), ((l.filterMap g).map Prod.fst).Sublist (l.map Prod.fst) := by
  intro l
  induction l with
  | nil => simp
  | cons kv rest ih =>
    rw [List.filterMap_cons]
    cases h : g kv with
    | none =>
      simp only [List.map_cons]
      exact ih.cons kv.1
    | some x =>
      simp only [List.map_cons, hg kv x h]
      exact ih.cons₂ kv.1

/-! ### Lemmas about the planner -/

lemma pyRound_zero : pyRound 0 = 0 := by
  simp [pyRound]

lemma target_dist_fst (N : ℤ) (P : List (Bucket × ℚ)) :
    (P.map (fun sp => (sp.1, pyRound ((N : ℚ) * sp.2)))).map Prod.fst =
      P.map Prod.fst := by
  rw [List.map_map]; rfl

lemma target_dist_eq {P : List (Bucket × ℚ)} (N : ℤ)
    (hnd : (P.map Prod.fst).Nodup) :
    target_dist N P = P.map (fun sp => (sp.1, pyRound ((N : ℚ) * sp.2))) :=
  dictOf_eq_self (by rw [target_dist_fst]; exact hnd)

lemma dist_diff_body_fst (C : List (Bucket × ℕ)) :
    ∀ (kv : Bucket × ℤ) (x : Bucket × ℤ),
      (if (curGet C kv.1 : ℤ) < kv.2 then some (kv.1, kv.2 - curGet C kv.1)
        else none) = some x → x.1 = kv.1 := by
  intro kv x h
  split at h
  · injection h with h'
    rw [← h']
  · exact absurd h (by simp)

lemma plan_eq {P : List (Bucket × ℚ)} (N : ℤ) (C : List (Bucket × ℕ))
    (hnd : (P.map Prod.fst).Nodup) :
    plan P N C = P.filterMap (fun sp =>
      if (curGet C sp.1 : ℤ) < pyRound ((N : ℚ) * sp.2) then
        some (sp.1, pyRound ((N : ℚ) * sp.2) - curGet C sp.1)
      else none) := by
  unfold plan dist_diff
  rw [target_dist_eq N hnd]
  have hsub := filterMap_fst_sublist
    (fun kv => if (curGet C kv.1 : ℤ) < kv.2 then
      some (kv.1, kv.2 - curGet C kv.1) else none)
    (dist_diff_body_fst C)
    (P.map (fun sp => (sp.1, pyRound ((N : ℚ) * sp.2))))
  rw [dictOf_eq_self (hsub.nodup (by rw [target_dist_fst]; exact hnd))]
  rw [List.filterMap_map]
  rfl

/-- C1: the planner's deficit map contains a bucket iff it is in the
proportion map and its rounded target strictly exceeds its current count,
with value target minus current; an empty proportion map or a zero total
target gives an empty deficit map. -/
theorem spec_c1_planner_deficit (P : List (Bucket × ℚ)) (N : ℤ)
    (C : List (Bucket × ℕ)) (hnd : (P.map Prod.fst).Nodup) :
    (∀ b v, (b, v) ∈ plan P N C ↔
      ∃ p, (b, p) ∈ P ∧ (curGet C b : ℤ) < pyRound ((N : ℚ) * p) ∧
        v = pyRound ((N : ℚ) * p) - curGet C b)
    ∧ (N = 0 → plan P N C = [])
    ∧ (P = [] → plan P N C = []) := by
  refine ⟨?_, ?_, ?_⟩
  · intro b v
    rw [plan_eq N C hnd, List.mem_filterMap]
    constructor
    · rintro ⟨sp, hsp, heq⟩
      by_cases hc : (curGet C sp.1 : ℤ) < pyRound ((N : ℚ) * sp.2)
      · rw [if_pos hc] at heq
        injection heq with heq'
        have hb : sp.1 = b := congrArg Prod.fst heq'
        have hv : pyRound ((N : ℚ) * sp.2) - curGet C sp.1 = v :=
          congrArg Prod.snd heq'
        subst hb
        exact ⟨sp.2, by rw [Prod.mk.eta]; exact hsp, hc, hv.symm⟩
      · rw [if_neg hc] at heq
        exact absurd heq (by simp)
    · rintro ⟨p, hp, hc, hv⟩
      exact ⟨(b, p), hp, by rw [if_pos hc, hv]⟩
  · intro hN
    subst hN
    unfold plan dist_diff
    have h0 : (target_dist 0 P).filterMap (fun kv =>
        if (curGet C kv.1 : ℤ) < kv.2 then
          some (kv.1, kv.2 - (curGet C kv.1 : ℤ)) else none) = [] := by
      rw [List.filterMap_eq_nil]
      intro kv hkv
      rcases List.mem_map.mp (dictOf_mem hkv) with ⟨sp, _, heq⟩
      have h2 : kv.2 = pyRound (((0 : ℤ) : ℚ) * sp.2) := by rw [← heq]
      have h3 : kv.2 = 0 := by
        rw [h2]
        norm_num [pyRound_zero]
      rw [if_neg (by rw [h3]; exact not_lt.mpr (Int.natCast_nonneg _))]
    rw [h0]
    rfl
  · intro hP
    subst hP
    rfl

/-- C6: the planner is deterministic (a pure function of its inputs) and
the deficit map lists buckets in the order they appear in the proportion
map (its key sequence is an order-preserving subsequence of the
proportion map's key sequence). -/
theorem spec_c6_plan_deterministic_ordered (P : List (Bucket × ℚ)) (N : ℤ)
    (C : List (Bucket × ℕ)) (hnd : (P.map Prod.fst).Nodup) :
    plan P N C = plan P N C ∧
    ((plan P N C).map Prod.fst).Sublist (P.map Prod.fst) := by
  refine ⟨rfl, ?_⟩
  rw [plan_eq N C hnd]
  exact filterMap_fst_sublist _
    (by
      intro kv x h
      split at h
      · injection h with h'
        rw [← h']
      · exact absurd h (by simp)) P

/-- C2: for a bucket with deficit `d > 0` and cap `m > 0` the loop issues
exactly `⌈d/m⌉` requests, their sizes sum to `d`, every size is at most
`m`, all but the last equal `m`, and the last is `d % m` (or `m` when `m`
divides `d`). -/
theorem spec_c2_telescoping_batches (d m : ℤ) (hd : 0 < d) (hm : 0 < m) :
    (bucketBatches d m).length = ((d + m - 1) / m).toNat
    ∧ (bucketBatches d m).sum = d
    ∧ (∀ a ∈ bucketBatches d m, a ≤ m)
    ∧ (bucketBatches d m).dropLast =
        List.replicate ((bucketBatches d m).length - 1) m
    ∧ (bucketBatches d m).getLast? = some (if m ∣ d then m else d % m) := by
  obtain ⟨n, hBB, hceil, hsum, hrpos, hrle⟩ := bucketBatches_shape d m hd hm
  refine ⟨?_, ?_, ?_, ?_, ?_⟩
  · rw [hBB, hceil]
    simp
  · rw [hBB, List.sum_append, List.sum_replicate, List.sum_singleton,
      nsmul_eq_mul]
    exact hsum
  · intro a ha
    rw [hBB] at ha
    rcases List.mem_append.mp ha with h | h
    · rw [List.eq_of_mem_replicate h]
    · rw [List.mem_singleton.mp h]
      exact hrle
  · rw [hBB, List.dropLast_concat]
    simp
  · rw [hBB, List.getLast?_concat]

/-- C7: the per-bucket while-loop terminates for every integer `max_batch`,
and for `max_batch ≤ 0` it stops at its first guard check, issuing zero
generation requests. -/
theorem spec_c7_loop_terminates (d m : ℤ) :
    (∃ fuel l, bucketBatchesO fuel d m = some l)
    ∧ (m ≤ 0 → 0 < d →
        bucketBatchesO 1 d m = some [] ∧ bucketBatches d m = []) := by
  constructor
  · exact ⟨d.toNat + 1, bucketBatches d m, bucketBatchesO_terminates d m⟩
  · intro hm hd
    have ha : actual_bs d m = m := by
      unfold actual_bs
      rw [if_neg (by omega)]
    constructor
    · simp only [bucketBatchesO, ha]
      rw [if_pos hm]
    · rw [bucketBatches_unfold, ha, if_pos hm]

/-! ### The request trace of the fulfillment loop -/

lemma bucketLoopAux_fst (md5 : List ℕ → List ℕ) (gen : ℤ → List Image)
    (dir : String) (m : ℤ) :
    ∀ (fuel : ℕ) (t : ℤ) (fs : Fs),
      (bucketLoopAux md5 gen dir m fuel t fs).1 = bucketBatchesAux m fuel t := by
  intro fuel
  induction fuel with
  | zero => intro t fs; rfl
  | succ g ih =>
    intro t fs
    simp only [bucketLoopAux, bucketBatchesAux]
    by_cases ha : actual_bs t m ≤ 0
    · simp [ha]
    · simp only [if_neg ha]
      rw [ih]

lemma bucketLoop_fst (md5 : List ℕ → List ℕ) (gen : ℤ → List Image)
    (dir : String) (m t : ℤ) (fs : Fs) :
    (bucketLoop md5 gen dir m t fs).1 = bucketBatches t m :=
  bucketLoopAux_fst md5 gen dir m (t.toNat + 1) t fs

lemma runBuckets_fst (md5 : List ℕ → List ℕ) (gen : Bucket → ℤ → List Image)
    (dir : String) (m : ℤ) :
    ∀ (diff : List (Bucket × ℤ)) (fs : Fs),
      (runBuckets md5 gen dir m diff fs).1 = allBatches diff m := by
  intro diff
  induction diff with
  | nil => intro fs; rfl
  | cons bd rest ih =>
    intro fs
    simp only [runBuckets, allBatches, List.flatMap_cons]
    rw [bucketLoop_fst, ih]
    rfl

/-- C5: the remaining counter advances by the requested batch size (the
loop continues at `d - actual_bs`, whatever was written to disk), so the
request trace is a function of the deficit and the cap alone and is the
same for any two starting directory contents. -/
theorem spec_c5_requests_independent_of_disk (md5 : List ℕ → List ℕ)
    (gen : ℤ → List Image) (genB : Bucket → ℤ → List Image) (dir : String)
    (m d : ℤ) (fs₁ fs₂ : Fs) (diff : List (Bucket × ℤ)) :
    (bucketLoop md5 gen dir m d fs₁).1 = bucketBatches d m
    ∧ (bucketLoop md5 gen dir m d fs₁).1 = (bucketLoop md5 gen dir m d fs₂).1
    ∧ (runBuckets md5 genB dir m diff fs₁).1 =
        (runBuckets md5 genB dir m diff fs₂).1
    ∧ (0 < actual_bs d m →
        (bucketLoop md5 gen dir m d fs₁).1 =
          actual_bs d m ::
            (bucketLoop md5 gen dir m (d - actual_bs d m)
              (saveImages md5 dir fs₁ (gen (actual_bs d m)))).1) := by
  refine ⟨bucketLoop_fst md5 gen dir m d fs₁, ?_, ?_, ?_⟩
  · rw [bucketLoop_fst, bucketLoop_fst]
  · rw [runBuckets_fst, runBuckets_fst]
  · intro ha
    rw [bucketLoop_fst, bucketLoop_fst, bucketBatches_unfold d m,
      if_neg (by omega)]

lemma pyRound_intCast (n : ℤ) : pyRound ((n : ℚ)) = n := by
  unfold pyRound
  rw [Int.floor_intCast]
  norm_num

lemma bucketBatches_sum (d m : ℤ) (hd : 0 < d) (hm : 0 < m) :
    (bucketBatches d m).sum = d := by
  obtain ⟨n, hBB, _, hsum, _, _⟩ := bucketBatches_shape d m hd hm
  rw [hBB, List.sum_append, List.sum_replicate, List.sum_singleton,
    nsmul_eq_mul]
  exact hsum

lemma dist_diff_pos (target : List (Bucket × ℤ)) (C : List (Bucket × ℕ)) :
    ∀ bd ∈ dist_diff target C, 0 < bd.2 := by
  intro bd h
  rcases List.mem_filterMap.mp (dictOf_mem h) with ⟨kv, _, heq⟩
  split at heq
  · next hc =>
      injection heq with heq'
      have := congrArg Prod.snd heq'
      simp only at this
      omega
  · exact absurd heq (by simp)

lemma allBatches_snd_sum (diff : List (Bucket × ℤ)) (m : ℤ)
    (hpos : ∀ bd ∈ diff, 0 < bd.2) (hm : 0 < m) :
    ((allBatches diff m).map Prod.snd).sum = num_new_images diff := by
  induction diff with
  | nil => rfl
  | cons bd rest ih =>
    have hbd : 0 < bd.2 := hpos bd (List.mem_cons_self _ _)
    simp only [allBatches, List.flatMap_cons, List.map_append, List.sum_append,
      List.map_map, num_new_images, List.map_cons, List.sum_cons]
    have h1 : (Prod.snd ∘ fun a => (bd.1, a)) = (id : ℤ → ℤ) := rfl
    rw [h1, List.map_id, bucketBatches_sum bd.2 m hbd hm]
    have ih' := ih (fun x hx => hpos x (List.mem_cons_of_mem _ hx))
    simp only [allBatches, num_new_images] at ih'
    rw [ih']

/-- C3 (amended): `generate_class_images` returns no value (`retval` is
`none`, the Python function has no return statement); the total it logs
and uses as the progress total — the sum of the deficit map's values —
equals the sum of the batch sizes of all generation requests it issues,
whenever the batch cap is positive. -/
theorem spec_c3_reported_total (md5 : List ℕ → List ℕ)
    (gen : Bucket → ℤ → List Image) (dir : String) (N m : ℤ)
    (sizeDist : List (Bucket × ℚ)) (idSizeMap : List (String × Bucket))
    (fs0 : Fs) (hm : 0 < m) :
    ((generate_class_images_run md5 gen dir N m sizeDist idSizeMap
        fs0).requests.map Prod.snd).sum =
      (generate_class_images_run md5 gen dir N m sizeDist idSizeMap
        fs0).progressTotal
    ∧ (generate_class_images_run md5 gen dir N m sizeDist idSizeMap
        fs0).retval = none := by
  refine ⟨?_, rfl⟩
  unfold generate_class_images_run
  simp only
  rw [runBuckets_fst]
  exact allBatches_snd_sum _ m (dist_diff_pos _ _) hm

/-- C3 counterexample: on the spec's own example (one bucket with
proportion 1, total target 100, empty directory, cap 8) the operation
issues requests whose batch sizes sum to 100 but returns `None` — it does
not return the total count. -/
theorem spec_c3_counterexample :
    (generate_class_images_run (fun b => b)
      (fun _ n => List.replicate n.toNat ⟨[0]⟩) "cls" 100 8
      [((512, 512), 1)] [] []).retval = none
    ∧ ((generate_class_images_run (fun b => b)
      (fun _ n => List.replicate n.toNat ⟨[0]⟩) "cls" 100 8
      [((512, 512), 1)] [] []).requests.map Prod.snd).sum = 100 := by
  have hp : pyRound ((100 : ℚ)) = 100 := by
    have h := pyRound_intCast 100
    rwa [show (((100 : ℤ)) : ℚ) = (100 : ℚ) by norm_num] at h
  have hdiff : dist_diff (target_dist 100 [((512, 512), 1)])
      (cur_dist ([] : List (String × Bucket))) = [((512, 512), 100)] := by
    simp [target_dist, dist_diff, cur_dist, dictOf, dictInsert, curGet,
      pyRound_intCast, hp]
  refine ⟨rfl, ?_⟩
  unfold generate_class_images_run
  simp only [hdiff, runBuckets_fst]
  decide

theorem spec_c3_witness :
    (0 : ℤ) < 8
    ∧ (((generate_class_images_run (fun b => b)
        (fun _ n => List.replicate n.toNat ⟨[7]⟩) "out" 100 8
        [((512, 512), 1)] [] []).requests.map Prod.snd).sum =
      (generate_class_images_run (fun b => b)
        (fun _ n => List.replicate n.toNat ⟨[7]⟩) "out" 100 8
        [((512, 512), 1)] [] []).progressTotal
      ∧ (generate_class_images_run (fun b => b)
        (fun _ n => List.replicate n.toNat ⟨[7]⟩) "out" 100 8
        [((512, 512), 1)] [] []).retval = none) :=
  ⟨by decide, spec_c3_reported_total (fun b => b)
    (fun _ n => List.replicate n.toNat ⟨[7]⟩) "out" 100 8
    [((512, 512), 1)] [] [] (by decide)⟩

/-- C4: with aspect-ratio bucketing enabled and auto-generation enabled for
the concept, the run proceeds to generation exactly when the catalog's
bucket proportions sum to exactly 1; any other sum aborts the run with an
assertion failure. -/
theorem spec_c4_proportions_assertion (md5 : List ℕ → List ℕ)
    (gen : Bucket → ℤ → List Image) (catalog : Concept → List (Bucket × ℚ))
    (inventory : String → List (String × Bucket)) (res : ℤ) (c : Concept)
    (fs : Fs) (hen : c.class_set.auto_generate.enabled = true) :
    ((∃ g fs2, conceptRun md5 gen catalog inventory true res c fs =
        .ok (some g, fs2)) ↔ ((catalog c).map Prod.snd).sum = 1)
    ∧ (((catalog c).map Prod.snd).sum ≠ 1 →
        conceptRun md5 gen catalog inventory true res c fs =
          .error "AssertionError") := by
  unfold conceptRun conceptSizeDist
  rw [hen]
  by_cases hsum : ((catalog c).map Prod.snd).sum = 1
  · refine ⟨⟨fun _ => hsum, fun _ => ?_⟩, fun h => absurd hsum h⟩
    simp only [Bool.true_eq_false, if_neg, if_pos hsum]
    exact ⟨_, _, rfl⟩
  · constructor
    · refine ⟨fun ⟨g, fs2, h⟩ => ?_, fun h => absurd h hsum⟩
      simp only [Bool.true_eq_false, if_neg, if_false, if_neg hsum] at h
      cases h
    · intro _
      simp [hsum]

/-! ### Lemmas about content-addressed persistence -/

lemma fsLookup_fsWrite_self (fs : Fs) (name : String) (img : Image) :
    fsLookup (fsWrite fs name img) name = some img := by
  unfold fsLookup fsWrite
  rw [List.find?_cons_of_pos _ (by simp)]
  rfl

lemma find?_filter_ne {n n' : String} (h : n ≠ n') :
    ∀ fs : Fs, (fs.filter (fun kv => kv.1 ≠ n')).find? (fun kv => kv.1 = n) =
      fs.find? (fun kv => kv.1 = n) := by
  intro fs
  induction fs with
  | nil => rfl
  | cons kv rest ih =>
    by_cases hk : kv.1 = n'
    · have hkn : kv.1 ≠ n := fun e => h (by rw [← e, hk])
      rw [List.filter_cons_of_neg (by simp [hk]),
        List.find?_cons_of_neg _ (by simp [hkn]), ih]
    · rw [List.filter_cons_of_pos (by simp [hk])]
      by_cases hn : kv.1 = n
      · rw [List.find?_cons_of_pos _ (by simp [hn]),
          List.find?_cons_of_pos _ (by simp [hn])]
      · rw [List.find?_cons_of_neg _ (by simp [hn]),
          List.find?_cons_of_neg _ (by simp [hn]), ih]

lemma fsLookup_fsWrite_ne (fs : Fs) {n n' : String} (i : Image) (h : n ≠ n') :
    fsLookup (fsWrite fs n' i) n = fsLookup fs n := by
  unfold fsLookup fsWrite
  rw [List.find?_cons_of_neg _ (by simp; exact fun e => h e.symm),
    find?_filter_ne h fs]

lemma saveImages_lookup_of_ne (md5 : List ℕ → List ℕ) (dir : String)
    (post : List Image) (name : String)
    (h : ∀ i ∈ post, classFileName md5 dir i ≠ name) :
    ∀ fs : Fs, fsLookup (saveImages md5 dir fs post) name = fsLookup fs name := by
  induction post with
  | nil => intro fs; rfl
  | cons i rest ih =>
    intro fs
    unfold saveImages
    rw [List.foldl_cons]
    have h1 := ih (fun x hx => h x (List.mem_cons_of_mem _ hx))
      (fsWrite fs (classFileName md5 dir i) i)
    unfold saveImages at h1
    rw [h1, fsLookup_fsWrite_ne fs i
      (fun e => h i (List.mem_cons_self _ _) e.symm)]

/-- C8: each raw image returned by a generation call is persisted at
`dir ++ "/" ++ hex(md5(raw pixel bytes)) ++ ".jpg"`, silently overwriting
whatever the directory previously held at that path: after the batch is
saved, looking up an image's content-addressed filename yields that
image, for any prior directory contents (the image taken as the last of
the batch writing to its path). -/
theorem spec_c8_content_addressed_persistence (md5 : List ℕ → List ℕ)
    (dir : String) (fs : Fs) (images pre post : List Image) (img : Image)
    (hsplit : images = pre ++ img :: post)
    (hpost : ∀ i ∈ post, classFileName md5 dir i ≠ classFileName md5 dir img) :
    fsLookup (saveImages md5 dir fs images) (classFileName md5 dir img) =
      some img
    ∧ classFileName md5 dir img =
        dir ++ "/" ++ hexdigest (md5 img.bytes) ++ ".jpg" := by
  refine ⟨?_, rfl⟩
  rw [hsplit]
  unfold saveImages
  rw [List.foldl_append, List.foldl_cons]
  have h1 := saveImages_lookup_of_ne md5 dir post (classFileName md5 dir img)
    hpost (fsWrite (List.foldl
      (fun a i => fsWrite a (classFileName md5 dir i) i) fs pre)
      (classFileName md5 dir img) img)
  unfold saveImages at h1
  rw [h1, fsLookup_fsWrite_self]

/-- C9: when prior preservation is disabled in the configuration, `main`
is a no-op: it emits the warning and returns successfully without
building the pipeline and without issuing any generation request. -/
theorem spec_c9_disabled_noop (md5 : List ℕ → List ℕ)
    (gen : Bucket → ℤ → List Image) (catalog : Concept → List (Bucket × ℚ))
    (inventory : String → List (String × Bucket)) (cfg : Config) (fs : Fs)
    (h : cfg.prior_preservation_enabled = false) :
    mainRun md5 gen catalog inventory cfg fs =
      { warnings := ["Prior preservation not enabled. Class image generation is not needed."]
        pipelineBuilt := false
        result := .ok [] } := by
  unfold mainRun
  rw [h]
  rfl

/-- C10: `generate_class_images` creates the class directory (with any
missing parents) before inventorying it, so a missing directory gives a
current count of zero for every bucket instead of an error, while an
already fully existing directory chain is left unchanged. -/
theorem spec_c10_mkdir_before_inventory (fs : DirFs) (d : List String)
    (hne : d ≠ []) :
    (d ∉ fs.dirs → (∀ f ∈ fs.files, f.1 ∈ fs.dirs) →
      ∃ C, class_dir_inventory fs d = .ok C ∧ ∀ b, curGet C b = 0)
    ∧ ((∀ p ∈ pathAncestors d, p ∈ fs.dirs) → classDirSetup fs d = fs) := by
  constructor
  · intro hd hwf
    have hlen : 0 < d.length := List.length_pos.mpr hne
    have hmem : d ∈ mkdirParents fs.dirs d := by
      unfold mkdirParents
      refine List.mem_append.mpr (Or.inr ?_)
      rw [List.mem_filter]
      refine ⟨?_, by simp [hd]⟩
      unfold pathAncestors
      refine List.mem_map.mpr ⟨d.length - 1, ?_, ?_⟩
      · rw [List.mem_range]; omega
      · rw [show d.length - 1 + 1 = d.length by omega, List.take_length]
    refine ⟨[], ?_, fun b => rfl⟩
    unfold class_dir_inventory scanDir classDirSetup
    simp only
    rw [if_pos hmem]
    have hfil : fs.files.filter (fun f => f.1 = d) = [] := by
      rw [List.filter_eq_nil]
      intro f hf
      simp only [decide_eq_true_eq]
      exact fun e => hd (e ▸ hwf f hf)
    rw [hfil]
    rfl
  · intro hall
    unfold classDirSetup mkdirParents
    have hfil : (pathAncestors d).filter (fun p => p ∉ fs.dirs) = [] := by
      rw [List.filter_eq_nil]
      intro p hp
      simp [hall p hp]
    rw [hfil, List.append_nil]

/-! ### Witnesses -/

theorem spec_c1_witness :
    (([((512, 512), (1 : ℚ)), ((640, 480), 1)].map Prod.fst).Nodup
      ∧ ((512, 512), (7 : ℤ)) ∈
        plan [((512, 512), (1 : ℚ)), ((640, 480), 1)] 10 [((512, 512), 3)]) := by
  refine ⟨by decide, ?_⟩
  refine ((spec_c1_planner_deficit [((512, 512), (1 : ℚ)), ((640, 480), 1)] 10
    [((512, 512), 3)] (by decide)).1 (512, 512) 7).mpr ⟨1, by decide, ?_, ?_⟩
  · rw [mul_one, pyRound_intCast]
    decide
  · rw [mul_one, pyRound_intCast]
    decide

theorem spec_c2_witness :
    (0 : ℤ) < 7 ∧ (0 : ℤ) < 3
    ∧ (bucketBatches 7 3).length = (((7 : ℤ) + 3 - 1) / 3).toNat
    ∧ (bucketBatches 7 3).sum = 7
    ∧ (bucketBatches 7 3).getLast? = some (if (3 : ℤ) ∣ 7 then 3 else 7 % 3) :=
  ⟨by decide, by decide,
    (spec_c2_telescoping_batches 7 3 (by decide) (by decide)).1,
    (spec_c2_telescoping_batches 7 3 (by decide) (by decide)).2.1,
    (spec_c2_telescoping_batches 7 3 (by decide) (by decide)).2.2.2.2⟩

theorem spec_c4_witness :
    (∃ g fs2, conceptRun (fun b => b) (fun _ _ => [])
        (fun _ => [((512, 512), (1 : ℚ))]) (fun _ => []) true 512
        ⟨⟨"p", ⟨true, 10, 2⟩⟩, []⟩ [] = .ok (some g, fs2))
    ∧ conceptRun (fun b => b) (fun _ _ => [])
        (fun _ => [((512, 512), (1 : ℚ) / 2)]) (fun _ => []) true 512
        ⟨⟨"p", ⟨true, 10, 2⟩⟩, []⟩ [] = .error "AssertionError" := by
  constructor
  · exact (spec_c4_proportions_assertion (fun b => b) (fun _ _ => [])
      (fun _ => [((512, 512), (1 : ℚ))]) (fun _ => []) 512
      ⟨⟨"p", ⟨true, 10, 2⟩⟩, []⟩ [] rfl).1.mpr (by simp)
  · exact (spec_c4_proportions_assertion (fun b => b) (fun _ _ => [])
      (fun _ => [((512, 512), (1 : ℚ) / 2)]) (fun _ => []) 512
      ⟨⟨"p", ⟨true, 10, 2⟩⟩, []⟩ [] rfl).2 (by norm_num)

theorem spec_c5_witness :
    0 < actual_bs 5 2
    ∧ (bucketLoop (fun b => b) (fun n => [⟨[n.toNat]⟩]) "cls" 2 5 []).1 =
        actual_bs 5 2 ::
          (bucketLoop (fun b => b) (fun n => [⟨[n.toNat]⟩]) "cls" 2
            (5 - actual_bs 5 2)
            (saveImages (fun b => b) "cls" []
              ((fun n => [(⟨[n.toNat]⟩ : Image)]) (actual_bs 5 2)))).1 :=
  ⟨by decide,
    (spec_c5_requests_independent_of_disk (fun b => b)
      (fun n => [⟨[n.toNat]⟩]) (fun _ _ => []) "cls" 2 5 []
      [("a", ⟨[]⟩)] [((1, 1), 3)]).2.2.2 (by decide)⟩

theorem spec_c7_witness :
    (-1 : ℤ) ≤ 0 ∧ (0 : ℤ) < 5
    ∧ bucketBatchesO 1 5 (-1) = some [] ∧ bucketBatches 5 (-1) = [] :=
  ⟨by decide, by decide,
    (spec_c7_loop_terminates 5 (-1)).2 (by decide) (by decide)⟩

theorem spec_c8_witness :
    fsLookup
      (saveImages (fun _ => [0]) "cls"
        [(classFileName (fun _ => [0]) "cls" ⟨[1]⟩, ⟨[2]⟩)] [⟨[1]⟩])
      (classFileName (fun _ => [0]) "cls" ⟨[1]⟩) = some ⟨[1]⟩
    ∧ classFileName (fun _ => [0]) "cls" ⟨[1]⟩ =
        "cls" ++ "/" ++ hexdigest ((fun _ => [0]) [1]) ++ ".jpg" :=
  spec_c8_content_addressed_persistence (fun _ => [0]) "cls"
    [(classFileName (fun _ => [0]) "cls" ⟨[1]⟩, ⟨[2]⟩)] [⟨[1]⟩] [] [] ⟨[1]⟩
    rfl (by simp)

theorem spec_c9_witness :
    mainRun (fun b => b) (fun _ _ => []) (fun _ => []) (fun _ => [])
      ⟨false, false, 512, []⟩ [] =
      { warnings := ["Prior preservation not enabled. Class image generation is not needed."]
        pipelineBuilt := false
        result := .ok [] } :=
  spec_c9_disabled_noop (fun b => b) (fun _ _ => []) (fun _ => [])
    (fun _ => []) ⟨false, false, 512, []⟩ [] rfl

theorem spec_c10_witness :
    (∃ C, class_dir_inventory ⟨[["x"]], [(["x"], "i", (1, 2))]⟩ ["a", "b"] =
        .ok C ∧ ∀ b, curGet C b = 0)
    ∧ classDirSetup ⟨[["a"], ["a", "b"]], []⟩ ["a", "b"] =
        ⟨[["a"], ["a", "b"]], []⟩ := by
  constructor
  · exact (spec_c10_mkdir_before_inventory ⟨[["x"]], [(["x"], "i", (1, 2))]⟩
      ["a", "b"] (by decide)).1 (by decide) (by decide)
  · exact (spec_c10_mkdir_before_inventory ⟨[["a"], ["a", "b"]], []⟩
      ["a", "b"] (by decide)).2 (by decide)

theorem spec_c6_witness :
    (([((512, 512), (1 : ℚ)), ((640, 480), 1)].map Prod.fst).Nodup
      ∧ ((plan [((512, 512), (1 : ℚ)), ((640, 480), 1)] 10
          [((512, 512), 3)]).map Prod.fst).Sublist
        ([((512, 512), (1 : ℚ)), ((640, 480), 1)].map Prod.fst)) :=
  ⟨by decide,
    (spec_c6_plan_deterministic_ordered [((512, 512), (1 : ℚ)), ((640, 480), 1)]
      10 [((512, 512), 3)] (by decide)).2⟩

end GenClassImgs
